import Mathlib

/-!
Verification development for the configuration-scope evaluator and dogmatic
merge engine of the sacred repository (file sacred/config_scope.py).

The Python source is shallowly embedded: JSON-shaped plain values become the
inductive type Val, values living inside the dogmatic evaluation environment
(which additionally distinguishes the DogmaticDict and DogmaticList container
classes from plain dict and list) become DVal, and each Python function or
method of the source file is translated to a Lean definition of the same name.
Python dicts are modelled as insertion-ordered association lists with
overwrite-in-place update, which matches the observable behaviour of dict on
string keys.  Mutation is modelled by explicit state passing; the one aliasing
fact the source relies on (the DogmaticDict stored under a fixed key is the
very object held in the _fixed mapping, so mutating one mutates the other) is
modelled by writing the updated child back to both the entry list and the
_fixed list at that key.
-/

set_option maxHeartbeats 1000000
set_option linter.unusedVariables false

namespace Sacred

/-- Python runtime classes that can appear as the components of a recorded
type change.  DogmaticDict and DogmaticList are distinct classes from dict and
list (they are subclasses), and the type-change record stores the exact
class. -/
inductive PyType where
  | int
  | bool
  | str
  | nonetype
  | dict
  | list
  | tuple
  | dogmaticDict
  | dogmaticList
deriving DecidableEq, Repr

/-- Plain JSON-shaped Python values: scalars, dicts (string keyed, modelled as
insertion-ordered association lists), lists and tuples.  These are the values
appearing in the fixed baseline, the preset, and in the assignments executed
by a declarative block. -/
inductive Val where
  | int (n : Int)
  | bool (b : Bool)
  | str (s : String)
  | none
  | dict (entries : List (String × Val))
  | list (xs : List Val)
  | tuple (xs : List Val)
deriving Repr

/-- Values as they occur inside the dogmatic evaluation environment.  On top
of the plain shapes, a value can be a DogmaticDict (with its current entry
list, its _fixed mapping and its _typechanges record) or a DogmaticList.  The
plain dict and list constructors model ordinary Python dicts and lists, which
also occur inside the environment (for example as values assigned by the
block). -/
inductive DVal where
  | int (n : Int)
  | bool (b : Bool)
  | str (s : String)
  | none
  | dict (entries : List (String × DVal))
  | list (xs : List DVal)
  | tuple (xs : List DVal)
  | dogdict (entries : List (String × DVal)) (fixd : List (String × DVal))
      (tchanges : List (String × PyType × PyType))
  | doglist (xs : List DVal)
deriving Repr

/-- Association-list lookup: the value stored under the first occurrence of a
key, as Python dict indexing would return it. -/
def lookupA {α : Type} : List (String × α) → String → Option α
  | [], _ => Option.none
  | (k, v) :: rest, key => if k = key then some v else lookupA rest key

/-- Membership test for association lists (the in operator on Python dicts). -/
def memA {α : Type} (l : List (String × α)) (key : String) : Bool :=
  (lookupA l key).isSome

/-- Association-list update with Python dict semantics: if the key is already
present its value is overwritten in place (position preserved), otherwise the
pair is appended at the end (insertion order). -/
def setA {α : Type} : List (String × α) → String → α → List (String × α)
  | [], key, v => [(key, v)]
  | (k, w) :: rest, key, v =>
      if k = key then (key, v) :: rest else (k, w) :: setA rest key v

/-- Association-list deletion of the first occurrence of a key (the del
statement on Python dicts). -/
def eraseA {α : Type} : List (String × α) → String → List (String × α)
  | [], _ => []
  | (k, w) :: rest, key => if k = key then rest else (k, w) :: eraseA rest key

/-- Python type(x) for the embedded value shapes. -/
def pyTypeOf : DVal → PyType
  | .int _ => .int
  | .bool _ => .bool
  | .str _ => .str
  | .none => .nonetype
  | .dict _ => .dict
  | .list _ => .list
  | .tuple _ => .tuple
  | .dogdict _ _ _ => .dogmaticDict
  | .doglist _ => .dogmaticList

/-- Python isinstance(x, dict): true for plain dicts and for DogmaticDict,
which subclasses dict. -/
def isDictInst : DVal → Bool
  | .dict _ => true
  | .dogdict _ _ _ => true
  | _ => false

/-- Python isinstance(x, list): true for plain lists and for DogmaticList,
which subclasses list. -/
def isListInst : DVal → Bool
  | .list _ => true
  | .doglist _ => true
  | _ => false

/-- Python isinstance(x, DogmaticDict). -/
def isDogDict : DVal → Bool
  | .dogdict _ _ _ => true
  | _ => false

/-- Python isinstance(x, DogmaticList). -/
def isDogList : DVal → Bool
  | .doglist _ => true
  | _ => false

/-- Embeds type_changed from the source: a dogmatic dict only conflicts with
values that are not dicts at all, a dogmatic list only with values that are
not lists, and otherwise exact class inequality decides. -/
def type_changed (a b : DVal) : Bool :=
  if isDogDict a || isDogDict b then !(isDictInst a && isDictInst b)
  else if isDogList a || isDogList b then !(isListInst a && isListInst b)
  else pyTypeOf a != pyTypeOf b

mutual

/-- Embeds dogmatize from the source: a plain dict becomes a DogmaticDict
whose entry list is empty and whose _fixed mapping holds the recursively
dogmatized entries; a list becomes a DogmaticList of dogmatized elements; a
tuple is rebuilt recursively; scalars pass through. -/
def dogmatize : Val → DVal
  | .int n => .int n
  | .bool b => .bool b
  | .str s => .str s
  | .none => .none
  | .dict es => .dogdict [] (dogmatizeEntries es) []
  | .list xs => .doglist (dogmatizeList xs)
  | .tuple xs => .tuple (dogmatizeList xs)

/-- Dogmatizes every value of an entry list (the dict comprehension inside
dogmatize). -/
def dogmatizeEntries : List (String × Val) → List (String × DVal)
  | [] => []
  | (k, v) :: rest => (k, dogmatize v) :: dogmatizeEntries rest

/-- Dogmatizes every element of a list (the list comprehension inside
dogmatize). -/
def dogmatizeList : List Val → List DVal
  | [] => []
  | v :: rest => dogmatize v :: dogmatizeList rest

end

mutual

/-- The obvious embedding of a plain value into the environment value type:
dicts stay plain dicts, lists stay plain lists.  This is the identity
injection used when the declarative block or the preset supplies a plain
Python value to the environment. -/
def toDVal : Val → DVal
  | .int n => .int n
  | .bool b => .bool b
  | .str s => .str s
  | .none => .none
  | .dict es => .dict (toDValEntries es)
  | .list xs => .list (toDValList xs)
  | .tuple xs => .tuple (toDValList xs)

/-- Entry-wise plain embedding. -/
def toDValEntries : List (String × Val) → List (String × DVal)
  | [] => []
  | (k, v) :: rest => (k, toDVal v) :: toDValEntries rest

/-- Element-wise plain embedding. -/
def toDValList : List Val → List DVal
  | [] => []
  | v :: rest => toDVal v :: toDValList rest

end

mutual

/-- Embeds undogmatize from the source.  Note the exact source behaviour: a
DogmaticDict is converted to a plain dict of its CURRENT ENTRIES (its items
iteration), a DogmaticList to a plain list, a tuple is rebuilt recursively,
and anything else, including a plain dict or list, is returned unchanged
without recursing into it. -/
def undogmatize : DVal → DVal
  | .dogdict es _ _ => .dict (undogmatizeEntries es)
  | .doglist xs => .list (undogmatizeList xs)
  | .tuple xs => .tuple (undogmatizeList xs)
  | x => x

/-- Entry-wise undogmatize (the dict comprehension inside undogmatize). -/
def undogmatizeEntries : List (String × DVal) → List (String × DVal)
  | [] => []
  | (k, v) :: rest => (k, undogmatize v) :: undogmatizeEntries rest

/-- Element-wise undogmatize (the list comprehension inside undogmatize). -/
def undogmatizeList : List DVal → List DVal
  | [] => []
  | v :: rest => undogmatize v :: undogmatizeList rest

end

/-- State of a DogmaticDict object: its current dict content (entries), its
_fixed mapping and its _typechanges record. -/
structure DogmaticDict where
  entries : List (String × DVal)
  fixd : List (String × DVal)
  tchanges : List (String × PyType × PyType)
deriving Repr

/-- The items iteration of a dict-like value (plain dict or DogmaticDict),
used by the recursive-update loop of DogmaticDict.__setitem__. -/
def dictItems : DVal → List (String × DVal)
  | .dict es => es
  | .dogdict es _ _ => es
  | _ => []

mutual

/-- Embeds DogmaticDict.__setitem__ from the source.  For a key absent from
_fixed this is an ordinary dict store.  For a fixed key the stored value is
always the fixed value; a structural type mismatch is recorded in
_typechanges; and when the fixed value is a DogmaticDict and the supplied
value is a dict, the supplied entries are merged recursively into the child,
after which the child accumulated type changes are copied to the parent under
dotted keys.  The merged child is written back both to the entry list and to
the _fixed list, which models the source aliasing (both slots hold the same
object in Python). -/
def DogmaticDict.setItem (st : DogmaticDict) (key : String) (value : DVal) :
    DogmaticDict :=
  match lookupA st.fixd key with
  | Option.none => ⟨setA st.entries key value, st.fixd, st.tchanges⟩
  | some fixedVal =>
      let entries1 := setA st.entries key fixedVal
      let tc1 :=
        if type_changed value fixedVal then
          setA st.tchanges key (pyTypeOf value, pyTypeOf fixedVal)
        else st.tchanges
      match fixedVal, value with
      | .dogdict ces cfix ctc, .dict ves =>
          let child := DogmaticDict.updateItems ⟨ces, cfix, ctc⟩ ves
          let tc2 := child.tchanges.foldl
            (fun acc kp => setA acc (key ++ "." ++ kp.1) kp.2) tc1
          let childVal : DVal := .dogdict child.entries child.fixd child.tchanges
          ⟨setA entries1 key childVal, setA st.fixd key childVal, tc2⟩
      | .dogdict ces cfix ctc, .dogdict ves vfx vtc =>
          let child := DogmaticDict.updateItems ⟨ces, cfix, ctc⟩ ves
          let tc2 := child.tchanges.foldl
            (fun acc kp => setA acc (key ++ "." ++ kp.1) kp.2) tc1
          let childVal : DVal := .dogdict child.entries child.fixd child.tchanges
          ⟨setA entries1 key childVal, setA st.fixd key childVal, tc2⟩
      | _, _ => ⟨entries1, st.fixd, tc1⟩
termination_by sizeOf value
decreasing_by all_goals simp_wf <;> omega

/-- The recursive-update loop of DogmaticDict.__setitem__: applies setItem for
each supplied entry in order. -/
def DogmaticDict.updateItems (st : DogmaticDict) :
    List (String × DVal) → DogmaticDict
  | [] => st
  | (k, v) :: rest => DogmaticDict.updateItems (st.setItem k v) rest
termination_by items => sizeOf items
decreasing_by all_goals simp_wf <;> omega

end

/-- Embeds DogmaticDict.__delitem__: deletion is a no-op on fixed keys and
ordinary removal otherwise. -/
def DogmaticDict.delItem (st : DogmaticDict) (key : String) : DogmaticDict :=
  if memA st.fixd key then st
  else ⟨eraseA st.entries key, st.fixd, st.tchanges⟩

/-- Embeds DogmaticDict.update for a mapping argument: every supplied pair is
stored through setItem, in order. -/
def DogmaticDict.update (st : DogmaticDict) (items : List (String × DVal)) :
    DogmaticDict :=
  DogmaticDict.updateItems st items

mutual

/-- Embeds DogmaticDict.revelation from the source: for every key of _fixed
(in order), if the key is absent from the dict content it is stored through
setItem and reported missing; then, if the now-current entry at the key is a
DogmaticDict, revelation recurses into it and the reported child paths are
prefixed with the key and a dot.  The child updated by the recursive call is
written back both to the entry list and to the _fixed list, modelling the
source aliasing of the two slots.  The Python recursion is structural on the
finite nesting of DogmaticDict children; the fuel argument bounds that
nesting depth (callers pass the depth of the fixed tree, which the lemmas
below show is always sufficient).  The returned path list models the Python
set in iteration order; its elements are pairwise distinct because the keys
of a dict are. -/
def DogmaticDict.revelation : Nat → DogmaticDict → DogmaticDict × List String
  | 0, st => (st, [])
  | fuel + 1, st => DogmaticDict.revelationKeys fuel st (st.fixd.map Prod.fst)
termination_by fuel st => (fuel, 0, 0)

/-- The loop of DogmaticDict.revelation over the (snapshot of the) fixed
keys: a missing fixed key is stored through setItem and reported; then the
now-current entry at the key, when it is a DogmaticDict, is recursed into
(see revealChild). -/
def DogmaticDict.revelationKeys :
    Nat → DogmaticDict → List String → DogmaticDict × List String
  | _, st, [] => (st, [])
  | fuel, st, key :: rest =>
      match lookupA st.fixd key with
      | Option.none => DogmaticDict.revelationKeys fuel st rest
      | some fv =>
          let p1 :=
            if memA st.entries key then (st, ([] : List String))
            else (st.setItem key fv, [key])
          let p2 := DogmaticDict.revealChild fuel p1.1 key
          let p3 := DogmaticDict.revelationKeys fuel p2.1 rest
          (p3.1, p1.2 ++ p2.2 ++ p3.2)
termination_by fuel st keys => (fuel, 1, keys.length)

/-- The recursive step of the revelation loop: when the current entry at the
key is a DogmaticDict, revelation recurses into it, the updated child is
written back to both the entry list and the _fixed list (the source mutates
the single shared object), and the reported child paths are dot-prefixed
with the key. -/
def DogmaticDict.revealChild (fuel : Nat) (st : DogmaticDict)
    (key : String) : DogmaticDict × List String :=
  match lookupA st.entries key with
  | some (.dogdict ces cfix ctc) =>
      let pc := DogmaticDict.revelation fuel ⟨ces, cfix, ctc⟩
      let childVal : DVal := .dogdict pc.1.entries pc.1.fixd pc.1.tchanges
      (⟨setA st.entries key childVal, setA st.fixd key childVal,
        st.tchanges⟩,
       pc.2.map (fun k => key ++ "." ++ k))
  | _ => (st, [])
termination_by (fuel, 0, 1)

end

/-- Python list methods of DogmaticList, and the mutating dunder operations,
as functions on the observable list contents.  The source bodies are all
either pass (leaving the list unchanged), return self (for the in-place
operators), or a raise (for pop). -/
def DogmaticList.append (l : List DVal) (x : DVal) : List DVal := l

/-- Embeds DogmaticList.extend (body pass). -/
def DogmaticList.extend (l : List DVal) (iterable : List DVal) : List DVal := l

/-- Embeds DogmaticList.insert (body pass). -/
def DogmaticList.insert (l : List DVal) (index : Int) (x : DVal) :
    List DVal := l

/-- Embeds DogmaticList.reverse (body pass). -/
def DogmaticList.reverse (l : List DVal) : List DVal := l

/-- Embeds DogmaticList.sort (body pass; the cmp, key and reverse arguments
are accepted and ignored exactly as in the source). -/
def DogmaticList.sort (l : List DVal) (cmp : Option (DVal → DVal → Bool))
    (key : Option (DVal → DVal)) (reverse : Bool) : List DVal := l

/-- Embeds DogmaticList.__iadd__, which returns self: the result is the very
same sequence. -/
def DogmaticList.iadd (l : List DVal) (other : List DVal) : List DVal := l

/-- Embeds DogmaticList.__imul__, which returns self. -/
def DogmaticList.imul (l : List DVal) (other : Int) : List DVal := l

/-- Embeds DogmaticList.__setitem__ (body pass). -/
def DogmaticList.setItem (l : List DVal) (key : Int) (value : DVal) :
    List DVal := l

/-- Embeds DogmaticList.__setslice__ (body pass). -/
def DogmaticList.setSlice (l : List DVal) (i j : Int)
    (sequence : List DVal) : List DVal := l

/-- Embeds DogmaticList.__delitem__ (body pass). -/
def DogmaticList.delItem (l : List DVal) (key : Int) : List DVal := l

/-- Embeds DogmaticList.__delslice__ (body pass). -/
def DogmaticList.delSlice (l : List DVal) (i j : Int) : List DVal := l

/-- Embeds DogmaticList.remove (body pass). -/
def DogmaticList.remove (l : List DVal) (value : DVal) : List DVal := l

/-- Python exception kinds raised by the embedded code, carrying the message
or offending name. -/
inductive PyErr where
  | assertionError (msg : String)
  | keyError (key : String)
  | attributeError (name : String)
  | typeError (msg : String)
deriving DecidableEq, Repr

/-- Embeds DogmaticList.pop, whose body unconditionally raises
TypeError with the message below (it never inspects the index and never
returns an element). -/
def DogmaticList.pop (l : List DVal) (index : Option Int) :
    Except PyErr DVal :=
  .error (.typeError "Cannot pop from DogmaticList")

/-- The mutating operations of the DogmaticList method table, with their
arguments, used to state which of them can raise. -/
inductive DLOp where
  | append (x : DVal)
  | extend (iterable : List DVal)
  | insert (index : Int) (x : DVal)
  | reverse
  | sort (cmp : Option (DVal → DVal → Bool)) (key : Option (DVal → DVal))
      (rev : Bool)
  | iadd (other : List DVal)
  | imul (other : Int)
  | setItem (key : Int) (value : DVal)
  | setSlice (i j : Int) (sequence : List DVal)
  | delItem (key : Int)
  | delSlice (i j : Int)
  | remove (value : DVal)
  | pop (index : Option Int)

/-- Whether an operation is the pop-at-index method. -/
def DLOp.isPop : DLOp → Bool
  | .pop _ => true
  | _ => false

/-- Runs one mutating operation of the DogmaticList method table on the
observable contents of a fixed sequence, returning either the resulting
contents or the raised exception. -/
def DogmaticList.run (op : DLOp) (l : List DVal) : Except PyErr (List DVal) :=
  match op with
  | .append x => .ok (DogmaticList.append l x)
  | .extend it => .ok (DogmaticList.extend l it)
  | .insert i x => .ok (DogmaticList.insert l i x)
  | .reverse => .ok (DogmaticList.reverse l)
  | .sort c k r => .ok (DogmaticList.sort l c k r)
  | .iadd o => .ok (DogmaticList.iadd l o)
  | .imul o => .ok (DogmaticList.imul l o)
  | .setItem k v => .ok (DogmaticList.setItem l k v)
  | .setSlice i j s => .ok (DogmaticList.setSlice l i j s)
  | .delItem k => .ok (DogmaticList.delItem l k)
  | .delSlice i j => .ok (DogmaticList.delSlice l i j)
  | .remove v => .ok (DogmaticList.remove l v)
  | .pop i =>
      match DogmaticList.pop l i with
      | .error e => .error e
      | .ok _ => .ok l

/-- Declarative blocks are modelled, following the design notes of the
specification, as a finite sequence of explicit top-level declarations
executed in order against the hybrid environment: an assignment of a plain
JSON-shaped value to a name, or a deletion of a name.  This is the fragment
of procedural blocks the merge semantics is about; each statement acts on the
environment exactly as the corresponding Python statement does (assignment
through DogmaticDict.__setitem__, del through DogmaticDict.__delitem__). -/
inductive Stmt where
  | assign (key : String) (v : Val)
  | del (key : String)

/-- Executes one block statement on the environment. -/
def runStmt (st : DogmaticDict) : Stmt → DogmaticDict
  | .assign k v => st.setItem k (toDVal v)
  | .del k => st.delItem k

/-- Executes a block, statement by statement. -/
def runStmts (st : DogmaticDict) (body : List Stmt) : DogmaticDict :=
  body.foldl runStmt st

/-- The shape of a supplied block as seen by inspect.getargspec: its formal
argument names, whether it has variadic positional arguments, whether it has
variadic keyword arguments, and its body. -/
structure FuncSpec where
  args : List String
  varargs : Bool
  keywords : Bool
  body : List Stmt

/-- Embeds is_zero_argument_function from the source. -/
def is_zero_argument_function (f : FuncSpec) : Bool :=
  f.args.isEmpty && !f.varargs && !f.keywords

/-- State of a ConfigScope object: the body of its block, the _initialized
flag, its dict content (the configuration produced by the last evaluation),
and the added_values and typechanges reports. -/
structure ConfigScope where
  body : List Stmt
  initialized : Bool
  items : List (String × DVal)
  added_values : List String
  typechanges : List (String × PyType × PyType)

/-- Embeds ConfigScope.__init__: the zero-argument assertion fires before the
body is captured and before any evaluation can run; a passing construction
stores the body and starts uninitialized with empty reports. -/
def mkConfigScope (f : FuncSpec) : Except PyErr ConfigScope :=
  if is_zero_argument_function f then
    .ok ⟨f.body, false, [], [], []⟩
  else
    .error (.assertionError "only zero-argument function can be ConfigScopes")

mutual

/-- Maximum nesting depth of mappings in a plain tree (used as the fuel for
the revelation pass, whose recursion descends one mapping level at a
time). -/
def dictDepth : Val → Nat
  | .dict es => dictDepthEntries es + 1
  | _ => 0

/-- Maximum mapping depth over the values of an entry list. -/
def dictDepthEntries : List (String × Val) → Nat
  | [] => 0
  | (_, v) :: rest => max (dictDepth v) (dictDepthEntries rest)

end

/-- The evaluation environment produced by ConfigScope.__call__ up to and
including the revelation pass: cfg_locals starts as dogmatize(fixed or ()),
the preset (when given) is merged in through update, the block body runs, and
revelation fills the gaps, returning the final environment together with the
added_values report. -/
def evalEnv (fixed preset : Option (List (String × Val))) (body : List Stmt) :
    DogmaticDict × List String :=
  let F := (fixed.getD [])
  let st0 : DogmaticDict := ⟨[], dogmatizeEntries F, []⟩
  let st1 :=
    match preset with
    | some p => st0.update (toDValEntries p)
    | Option.none => st0
  let st2 := runStmts st1 body
  DogmaticDict.revelation (dictDepth (Val.dict F)) st2

/-- The startswith underscore test of ConfigScope.__call__, on the character
sequence of the name. -/
def startsWithUnderscore (k : String) : Bool :=
  match k.data with
  | [] => false
  | c :: _ => c = '_'

/-- The result-building loop at the end of ConfigScope.__call__: bindings
whose name starts with an underscore are skipped, every kept value is
undogmatized.  The json.dumps serializability probe never fails on the
embedded value shapes (dicts, lists, tuples, scalars, and their dogmatic
variants, which are dict and list subclasses, are all serializable), so the
probe is not represented. -/
def buildItems : List (String × DVal) → List (String × DVal)
  | [] => []
  | (k, v) :: rest =>
      if startsWithUnderscore k then buildItems rest
      else (k, undogmatize v) :: buildItems rest

/-- Embeds ConfigScope.__call__: resets the stored configuration, evaluates
the block against the hybrid environment, runs revelation, stores the
added_values report, the typechanges report (the source applies undogmatize
to the _typechanges dict, which is a plain dict and is therefore returned
unchanged), and the filtered, undogmatized bindings. -/
def ConfigScope.call (cs : ConfigScope)
    (fixed preset : Option (List (String × Val))) : ConfigScope :=
  let ev := evalEnv fixed preset cs.body
  { cs with
    initialized := true
    items := buildItems ev.1.entries
    added_values := ev.2
    typechanges := ev.1.tchanges }

/-- Embeds ConfigScope.__getitem__: an assertion guards against access before
the first evaluation; afterwards the lookup behaves as on a plain dict,
raising KeyError for missing keys. -/
def ConfigScope.getItem (cs : ConfigScope) (key : String) :
    Except PyErr DVal :=
  if !cs.initialized then
    .error (.assertionError "ConfigScope has to be executed before access")
  else
    match lookupA cs.items key with
    | some v => .ok v
    | Option.none => .error (.keyError key)

/-- Embeds ConfigScope.__getattr__ for a name that is not an attribute of the
object itself (i.e. a configuration key): it delegates to item access,
translating only KeyError into AttributeError; the assertion error raised by
premature item access is not caught and propagates. -/
def ConfigScope.getAttr (cs : ConfigScope) (key : String) :
    Except PyErr DVal :=
  match ConfigScope.getItem cs key with
  | .ok v => .ok v
  | .error (.keyError k) => .error (.attributeError k)
  | .error e => .error e

/-- Looks up a dotted path (given as its list of components) in a plain tree,
descending through mappings. -/
def lookPathV : Val → List String → Option Val
  | v, [] => some v
  | .dict es, k :: rest =>
      match lookupA es k with
      | some v => lookPathV v rest
      | Option.none => Option.none
  | _, _ :: _ => Option.none

/-- Looks up a dotted path in an environment tree, descending through
dict-like nodes (plain dicts and DogmaticDict contents alike, as Python
indexing does). -/
def lookPathD : DVal → List String → Option DVal
  | v, [] => some v
  | .dict es, k :: rest =>
      match lookupA es k with
      | some v => lookPathD v rest
      | Option.none => Option.none
  | .dogdict es _ _, k :: rest =>
      match lookupA es k with
      | some v => lookPathD v rest
      | Option.none => Option.none
  | _, _ :: _ => Option.none

/-- Whether a plain value is a mapping node. -/
def isDictV : Val → Bool
  | .dict _ => true
  | _ => false

mutual

/-- The class of plain trees on which the dogmatize/undogmatize round trip
can restore the original value: trees containing no non-empty mapping node.
Any non-empty mapping comes back empty, because dogmatize moves all entries
into the _fixed side and leaves the dict content empty, and undogmatize reads
only the dict content. -/
def roundTrips : Val → Bool
  | .dict [] => true
  | .dict (_ :: _) => false
  | .list xs => roundTripsList xs
  | .tuple xs => roundTripsList xs
  | _ => true

/-- Element-wise round-trip condition. -/
def roundTripsList : List Val → Bool
  | [] => true
  | v :: rest => roundTrips v && roundTripsList rest

end

/-- Whether an access outcome is a KeyError or AttributeError (the error
classes named by the specification for premature access). -/
def isKeyOrAttrErr : Except PyErr DVal → Bool
  | .error (.keyError _) => true
  | .error (.attributeError _) => true
  | _ => false

/-- Structural protection invariant tying an environment value to the plain
fixed subtree it protects.  A non-mapping fixed value is stored as its exact
dogmatic projection.  A mapping fixed value is stored as a DogmaticDict
whose _fixed mapping has exactly the keys of the plain subtree with
recursively protected values, and whose dict content agrees with the _fixed
mapping on every fixed key that is present (the two slots alias the same
object in the source).  The invariant says nothing about free keys or about
the type-change record. -/
inductive FxV : DVal → Val → Prop where
  | scalar (v : Val) : isDictV v = false → FxV (dogmatize v) v
  | dict (ces cfix : List (String × DVal))
      (ctc : List (String × PyType × PyType)) (es : List (String × Val)) :
      (∀ k dv, lookupA cfix k = some dv → memA es k = true) →
      (∀ k dv v, lookupA cfix k = some dv → lookupA es k = some v →
        FxV dv v) →
      (∀ k v, lookupA es k = some v → memA cfix k = true) →
      (∀ k dv, lookupA cfix k = some dv → memA ces k = true →
        lookupA ces k = some dv) →
      FxV (.dogdict ces cfix ctc) (.dict es)

/-- Post-revelation completeness: the environment value realizes every path
of the fixed subtree.  A non-mapping fixed value is present as its exact
dogmatic projection; a mapping fixed value is present as a DogmaticDict
whose dict content contains every fixed key with a recursively complete
value. -/
inductive CompV : DVal → Val → Prop where
  | scalar (v : Val) : isDictV v = false → CompV (dogmatize v) v
  | dict (ces cfix : List (String × DVal))
      (ctc : List (String × PyType × PyType)) (es : List (String × Val)) :
      (∀ k v, lookupA es k = some v → memA ces k = true) →
      (∀ k v dv, lookupA es k = some v → lookupA ces k = some dv →
        CompV dv v) →
      CompV (.dogdict ces cfix ctc) (.dict es)

/-! Association-list lemmas. -/

theorem lookupA_setA_self {α : Type} (l : List (String × α)) (k : String)
    (v : α) : lookupA (setA l k v) k = some v := by
  induction l with
  | nil => simp [setA, lookupA]
  | cons p rest ih =>
      obtain ⟨k0, w⟩ := p
      by_cases h : k0 = k <;> simp [setA, lookupA, h, ih]

theorem lookupA_setA_ne {α : Type} (l : List (String × α)) (k k0 : String)
    (v : α) (h : k0 ≠ k) : lookupA (setA l k v) k0 = lookupA l k0 := by
  have h2 : k ≠ k0 := Ne.symm h
  induction l with
  | nil => simp [setA, lookupA, h2]
  | cons p rest ih =>
      obtain ⟨k1, w⟩ := p
      by_cases h1 : k1 = k
      · subst h1
        simp [setA, lookupA, h2]
      · simp only [setA, if_neg h1, lookupA]
        by_cases h3 : k1 = k0 <;> simp [h3, ih]

theorem memA_setA {α : Type} (l : List (String × α)) (k k0 : String) (v : α) :
    memA (setA l k v) k0 = (if k0 = k then true else memA l k0) := by
  by_cases h : k0 = k
  · simp [memA, h, lookupA_setA_self]
  · simp [memA, h, lookupA_setA_ne l k k0 v h]

theorem setA_setA {α : Type} (l : List (String × α)) (k : String) (a b : α) :
    setA (setA l k a) k b = setA l k b := by
  induction l with
  | nil => simp [setA]
  | cons p rest ih =>
      obtain ⟨k1, w⟩ := p
      by_cases h : k1 = k <;> simp [setA, h, ih]

theorem lookupA_eraseA_ne {α : Type} (l : List (String × α)) (k k0 : String)
    (h : k0 ≠ k) : lookupA (eraseA l k) k0 = lookupA l k0 := by
  have h2 : k ≠ k0 := Ne.symm h
  induction l with
  | nil => simp [eraseA]
  | cons p rest ih =>
      obtain ⟨k1, w⟩ := p
      by_cases h1 : k1 = k
      · subst h1
        simp [eraseA, lookupA, h2]
      · simp only [eraseA, if_neg h1, lookupA]
        by_cases h3 : k1 = k0 <;> simp [h3, ih]

theorem memA_map_fst {α : Type} (l : List (String × α)) (k : String) :
    k ∈ l.map Prod.fst ↔ memA l k = true := by
  induction l with
  | nil => simp [memA, lookupA]
  | cons p rest ih =>
      obtain ⟨k1, w⟩ := p
      by_cases h : k1 = k
      · subst h
        simp [memA, lookupA]
      · simp [memA, lookupA, h, Ne.symm h, ih]

theorem sizeOf_lookupA {α : Type} [SizeOf α] (l : List (String × α))
    (k : String) (v : α)
    (h : lookupA l k = some v) : sizeOf v < sizeOf l := by
  induction l with
  | nil => simp [lookupA] at h
  | cons p rest ih =>
      obtain ⟨k1, w⟩ := p
      by_cases h1 : k1 = k
      · simp [lookupA, h1] at h
        subst h
        simp
        omega
      · simp [lookupA, h1] at h
        have := ih h
        simp
        omega

theorem dotted_ne (a b : String) : ¬(a ++ "." ++ b = a) := by
  intro h
  have hlen := congrArg String.length h
  rw [String.length_append, String.length_append] at hlen
  have hdot : ("." : String).length = 1 := rfl
  omega

theorem lookupA_foldl_dotted {α : Type} (tcs : List (String × α))
    (acc : List (String × α)) (key : String) :
    lookupA (tcs.foldl (fun a kp => setA a (key ++ "." ++ kp.1) kp.2) acc)
      key = lookupA acc key := by
  induction tcs generalizing acc with
  | nil => rfl
  | cons p rest ih =>
      obtain ⟨k1, w⟩ := p
      simp only [List.foldl]
      rw [ih, lookupA_setA_ne]
      exact fun hh => dotted_ne key k1 hh.symm

/-! Easy structural claims about the containers and the evaluator shell. -/

/-- C4: for every fixed sequence S, each of append, extend, insert, reverse,
sort, slice-assignment, item-assignment, item-deletion, in-place add,
in-place multiply and remove, with any arguments, leaves the observable
contents identical to S, and the in-place operators return the very same
sequence. -/
theorem claim4_sequence_ops_noops (S : List DVal) (x v : DVal)
    (it other seq : List DVal) (i j n idx : Int)
    (cmp : Option (DVal → DVal → Bool)) (key : Option (DVal → DVal))
    (rev : Bool) :
    DogmaticList.append S x = S ∧
    DogmaticList.extend S it = S ∧
    DogmaticList.insert S i x = S ∧
    DogmaticList.reverse S = S ∧
    DogmaticList.sort S cmp key rev = S ∧
    DogmaticList.setSlice S i j seq = S ∧
    DogmaticList.setItem S idx v = S ∧
    DogmaticList.delItem S idx = S ∧
    DogmaticList.delSlice S i j = S ∧
    DogmaticList.iadd S other = S ∧
    DogmaticList.imul S n = S ∧
    DogmaticList.remove S v = S :=
  ⟨rfl, rfl, rfl, rfl, rfl, rfl, rfl, rfl, rfl, rfl, rfl, rfl⟩

/-- C7: pop at any index on a fixed sequence raises the designated error
(the source raises TypeError with this message) rather than silently doing
nothing, the sequence is left unchanged, and pop is the only operation of
the mutating method table that raises: every other operation returns the
sequence unchanged without error. -/
theorem claim7_pop_raises (S : List DVal) (op : DLOp) :
    (op.isPop = true →
      DogmaticList.run op S =
        .error (.typeError "Cannot pop from DogmaticList")) ∧
    (op.isPop = false → DogmaticList.run op S = .ok S) := by
  cases op <;> simp [DLOp.isPop, DogmaticList.run, DogmaticList.pop,
    DogmaticList.append, DogmaticList.extend, DogmaticList.insert,
    DogmaticList.reverse, DogmaticList.sort, DogmaticList.iadd,
    DogmaticList.imul, DogmaticList.setItem, DogmaticList.setSlice,
    DogmaticList.delItem, DogmaticList.delSlice, DogmaticList.remove]

/-- Witness for C7 at concrete inputs: pop raises on the one-element
sequence, reverse succeeds and leaves it unchanged. -/
theorem claim7_pop_raises_witness :
    DLOp.isPop (DLOp.pop Option.none) = true ∧
    DogmaticList.run (DLOp.pop Option.none) [DVal.int 1] =
      .error (.typeError "Cannot pop from DogmaticList") ∧
    DLOp.isPop DLOp.reverse = false ∧
    DogmaticList.run DLOp.reverse [DVal.int 1] = .ok [DVal.int 1] :=
  ⟨rfl, (claim7_pop_raises [DVal.int 1] (DLOp.pop Option.none)).1 rfl, rfl,
   (claim7_pop_raises [DVal.int 1] DLOp.reverse).2 rfl⟩

/-- C8: constructing a scope evaluator from a block with nonzero arity,
variadic positional arguments or variadic keyword arguments fails fast with
the construction-time error, before any evaluation can run; a strictly
zero-argument block is accepted and stored uninitialized. -/
theorem claim8_zero_argument_contract (f : FuncSpec) :
    ((f.args ≠ [] ∨ f.varargs = true ∨ f.keywords = true) →
      mkConfigScope f =
        .error (.assertionError
          "only zero-argument function can be ConfigScopes")) ∧
    (f.args = [] → f.varargs = false → f.keywords = false →
      mkConfigScope f = .ok ⟨f.body, false, [], [], []⟩) := by
  obtain ⟨args, va, kw, body⟩ := f
  constructor
  · intro h
    have hz : is_zero_argument_function ⟨args, va, kw, body⟩ = false := by
      rcases h with h | h | h
      · cases args with
        | nil => exact absurd rfl h
        | cons a as => simp [is_zero_argument_function, List.isEmpty]
      · simp only at h
        simp [is_zero_argument_function, h]
      · simp only at h
        simp [is_zero_argument_function, h]
    simp [mkConfigScope, hz]
  · intro h1 h2 h3
    simp only at h1 h2 h3
    subst h1
    subst h2
    subst h3
    simp [mkConfigScope, is_zero_argument_function, List.isEmpty]

/-- Witness for C8 at concrete inputs: a one-argument block is rejected, a
zero-argument block is accepted. -/
theorem claim8_zero_argument_contract_witness :
    mkConfigScope ⟨["x"], false, false, []⟩ =
      .error (.assertionError
        "only zero-argument function can be ConfigScopes") ∧
    mkConfigScope ⟨[], false, false, []⟩ = .ok ⟨[], false, [], [], []⟩ :=
  ⟨(claim8_zero_argument_contract ⟨["x"], false, false, []⟩).1
      (Or.inl (by simp)),
   (claim8_zero_argument_contract ⟨[], false, false, []⟩).2 rfl rfl rfl⟩

/-- C9 counterexample: reading a configuration key from an unevaluated scope
(by item access or attribute-style access) raises the assertion guard error,
which is neither a KeyError nor an AttributeError, contradicting the claimed
error class. -/
theorem claim9_counterexample :
    ConfigScope.getItem ⟨[], false, [], [], []⟩ "x" =
      .error (.assertionError
        "ConfigScope has to be executed before access") ∧
    ConfigScope.getAttr ⟨[], false, [], [], []⟩ "x" =
      .error (.assertionError
        "ConfigScope has to be executed before access") ∧
    isKeyOrAttrErr (ConfigScope.getItem ⟨[], false, [], [], []⟩ "x") =
      false ∧
    isKeyOrAttrErr (ConfigScope.getAttr ⟨[], false, [], [], []⟩ "x") =
      false :=
  ⟨rfl, rfl, rfl, rfl⟩

/-- C9 amended: reading any configuration key before the first evaluation
fails, with the assertion guard error of the source (not a KeyError or
AttributeError); after an evaluation, item access for keys present in the
result returns their value. -/
theorem claim9_premature_access_amended (cs : ConfigScope) (k : String)
    (v : DVal) :
    (cs.initialized = false →
      cs.getItem k =
        .error (.assertionError
          "ConfigScope has to be executed before access") ∧
      cs.getAttr k =
        .error (.assertionError
          "ConfigScope has to be executed before access")) ∧
    (cs.initialized = true → lookupA cs.items k = some v →
      cs.getItem k = .ok v) := by
  constructor
  · intro h
    have h1 : cs.getItem k =
        .error (.assertionError
          "ConfigScope has to be executed before access") := by
      simp [ConfigScope.getItem, h]
    exact ⟨h1, by simp [ConfigScope.getAttr, h1]⟩
  · intro h hv
    simp [ConfigScope.getItem, h, hv]

/-- Witness for C9 amended at concrete inputs: the guard fires on an
uninitialized scope, and a present key is returned after initialization. -/
theorem claim9_premature_access_amended_witness :
    ConfigScope.getItem ⟨[], false, [], [], []⟩ "k" =
      .error (.assertionError
        "ConfigScope has to be executed before access") ∧
    ConfigScope.getItem ⟨[], true, [("k", DVal.int 7)], [], []⟩ "k" =
      .ok (DVal.int 7) :=
  ⟨((claim9_premature_access_amended ⟨[], false, [], [], []⟩ "k"
      (DVal.int 0)).1 rfl).1,
   (claim9_premature_access_amended ⟨[], true, [("k", DVal.int 7)], [], []⟩
      "k" (DVal.int 7)).2 rfl rfl⟩

/-- C6: evaluating the block (c = 2; a = dict with b 99 and d 5) against
fixed with a mapping to dict with b 1, and the empty preset, produces the
configuration with c mapped to 2 and a mapped to the merged dict with b 1
and d 5, with empty added_values and empty typechanges. -/
theorem claim6_concrete_scenario :
    (ConfigScope.call ⟨[Stmt.assign "c" (Val.int 2),
        Stmt.assign "a" (Val.dict [("b", Val.int 99), ("d", Val.int 5)])],
        false, [], [], []⟩
      (some [("a", Val.dict [("b", Val.int 1)])]) (some [])).items =
      [("c", DVal.int 2),
       ("a", DVal.dict [("b", DVal.int 1), ("d", DVal.int 5)])] ∧
    (ConfigScope.call ⟨[Stmt.assign "c" (Val.int 2),
        Stmt.assign "a" (Val.dict [("b", Val.int 99), ("d", Val.int 5)])],
        false, [], [], []⟩
      (some [("a", Val.dict [("b", Val.int 1)])]) (some [])).added_values =
      [] ∧
    (ConfigScope.call ⟨[Stmt.assign "c" (Val.int 2),
        Stmt.assign "a" (Val.dict [("b", Val.int 99), ("d", Val.int 5)])],
        false, [], [], []⟩
      (some [("a", Val.dict [("b", Val.int 1)])]) (some [])).typechanges =
      [] := by
  refine ⟨?_, ?_, ?_⟩ <;>
    simp [ConfigScope.call, evalEnv, runStmts, runStmt, List.foldl, toDVal,
      toDValEntries, DogmaticDict.update, DogmaticDict.updateItems,
      DogmaticDict.setItem, DogmaticDict.delItem, lookupA, setA, memA,
      type_changed, isDogDict, isDogList, isDictInst, isListInst, pyTypeOf,
      dictDepth, dictDepthEntries, DogmaticDict.revelation,
      DogmaticDict.revelationKeys, DogmaticDict.revealChild, dogmatize,
      dogmatizeEntries,
      dogmatizeList, buildItems, undogmatize, undogmatizeEntries,
      undogmatizeList, dictItems, startsWithUnderscore]

/-- C3 counterexample: the round trip empties every non-empty mapping.  On
the one-entry mapping with a mapped to 1, undogmatize after dogmatize yields
the empty mapping, which is not value-equal to the original (the key a is
gone). -/
theorem claim3_counterexample :
    undogmatize (dogmatize (Val.dict [("a", Val.int 1)])) = DVal.dict [] ∧
    lookupA [("a", Val.int 1)] "a" = some (Val.int 1) := by
  exact ⟨by simp [dogmatize, dogmatizeEntries, undogmatize,
    undogmatizeEntries], rfl⟩

mutual

/-- Round-trip restoration on trees without non-empty mapping nodes. -/
theorem roundTrip_ok : ∀ v : Val, roundTrips v = true →
    undogmatize (dogmatize v) = toDVal v
  | .int n, _ => rfl
  | .bool b, _ => rfl
  | .str s, _ => rfl
  | .none, _ => rfl
  | .dict [], _ => by
      simp [dogmatize, dogmatizeEntries, undogmatize, undogmatizeEntries,
        toDVal, toDValEntries]
  | .dict (e :: rest), h => by simp [roundTrips] at h
  | .list xs, h => by
      have hx : roundTripsList xs = true := by
        simpa [roundTrips] using h
      simp [dogmatize, undogmatize, toDVal, roundTripList_ok xs hx]
  | .tuple xs, h => by
      have hx : roundTripsList xs = true := by
        simpa [roundTrips] using h
      simp [dogmatize, undogmatize, toDVal, roundTripList_ok xs hx]

/-- Element-wise round-trip restoration. -/
theorem roundTripList_ok : ∀ xs : List Val, roundTripsList xs = true →
    undogmatizeList (dogmatizeList xs) = toDValList xs
  | [], _ => rfl
  | v :: rest, h => by
      have h1 : roundTrips v = true ∧ roundTripsList rest = true := by
        simpa [roundTripsList, Bool.and_eq_true] using h
      simp [dogmatizeList, undogmatizeList, toDValList,
        roundTrip_ok v h1.1, roundTripList_ok rest h1.2]

end

/-- C3 amended: the round-trip law undogmatize (dogmatize x) value-equal to
x holds exactly on trees with no non-empty mapping node (lists, tuples,
scalars, empty mappings); any non-empty mapping node comes back empty,
because dogmatize stores all entries only as protected fixed values and
leaves the dict content of the projection empty. -/
theorem claim3_roundtrip_amended (x : Val) (h : roundTrips x = true) :
    undogmatize (dogmatize x) = toDVal x :=
  roundTrip_ok x h

/-- Witness for C3 amended at a concrete input: a list holding a scalar, a
tuple and an empty mapping survives the round trip. -/
theorem claim3_roundtrip_amended_witness :
    roundTrips (Val.list [Val.int 1, Val.tuple [Val.str "s"], Val.dict []])
      = true ∧
    undogmatize (dogmatize
        (Val.list [Val.int 1, Val.tuple [Val.str "s"], Val.dict []])) =
      toDVal (Val.list [Val.int 1, Val.tuple [Val.str "s"], Val.dict []]) :=
  ⟨by simp [roundTrips, roundTripsList],
   claim3_roundtrip_amended _ (by simp [roundTrips, roundTripsList])⟩

/-! Lemmas about DogmaticDict.setItem needed for the type-change and
protection claims. -/

/-- On a type mismatch at a fixed key there is never a recursive merge (a
mismatch with a fixed DogmaticDict means the supplied value is not a dict),
so setItem stores the fixed value and records exactly one overwritten
type-change pair. -/
theorem setItem_mismatch (st : DogmaticDict) (key : String) (v fv : DVal)
    (hfix : lookupA st.fixd key = some fv) (hch : type_changed v fv = true) :
    st.setItem key v =
      ⟨setA st.entries key fv, st.fixd,
       setA st.tchanges key (pyTypeOf v, pyTypeOf fv)⟩ := by
  cases fv <;> cases v <;>
    simp_all [DogmaticDict.setItem, type_changed, isDogDict, isDogList,
      isDictInst, isListInst]

/-- When the supplied type structurally agrees with the fixed type, no entry
is recorded at the key itself: the type-change record at that exact key is
unchanged (a recursive merge may add entries, but only at strictly longer
dotted keys). -/
theorem setItem_match_tc (st : DogmaticDict) (key : String) (v fv : DVal)
    (hfix : lookupA st.fixd key = some fv)
    (hch : type_changed v fv = false) :
    lookupA (st.setItem key v).tchanges key = lookupA st.tchanges key := by
  cases fv <;> cases v <;>
    simp_all [DogmaticDict.setItem, type_changed, isDogDict, isDogList,
      isDictInst, isListInst, lookupA_foldl_dotted]

/-- Any store makes the key present in the dict content (with the fixed
value, or the merged child, or the supplied value on a free key). -/
theorem memA_setItem_self (st : DogmaticDict) (key : String) (v : DVal) :
    memA (st.setItem key v).entries key = true := by
  cases hfx : lookupA st.fixd key with
  | none => simp [DogmaticDict.setItem, hfx, memA, lookupA_setA_self]
  | some fv =>
      cases fv <;> cases v <;>
        simp [DogmaticDict.setItem, hfx, memA, lookupA_setA_self]

/-- C5: assigning v to a protected key with fixed value f records the pair
(type of v, type of f) under the key when the types differ under the
structural rule, while the stored value remains f; records nothing at the
key when they agree; and repeated mismatching assignments overwrite the
single entry, leaving the pair of the last assignment. -/
theorem claim5_typechange_recording (st : DogmaticDict) (key : String)
    (v v1 v2 fv : DVal) (hfix : lookupA st.fixd key = some fv) :
    (type_changed v fv = true →
      (st.setItem key v).tchanges =
        setA st.tchanges key (pyTypeOf v, pyTypeOf fv) ∧
      lookupA (st.setItem key v).entries key = some fv) ∧
    (type_changed v fv = false →
      lookupA (st.setItem key v).tchanges key = lookupA st.tchanges key) ∧
    (type_changed v1 fv = true → type_changed v2 fv = true →
      ((st.setItem key v1).setItem key v2).tchanges =
        setA st.tchanges key (pyTypeOf v2, pyTypeOf fv)) := by
  refine ⟨fun hch => ?_,
    fun hch => setItem_match_tc st key v fv hfix hch,
    fun h1 h2 => ?_⟩
  · rw [setItem_mismatch st key v fv hfix hch]
    exact ⟨rfl, lookupA_setA_self _ _ _⟩
  · rw [setItem_mismatch st key v1 fv hfix h1]
    rw [setItem_mismatch
      ⟨setA st.entries key fv, st.fixd,
       setA st.tchanges key (pyTypeOf v1, pyTypeOf fv)⟩ key v2 fv hfix h2]
    simp [setA_setA]

/-- Witness for C5 at concrete inputs: a list assigned over a fixed mapping
records the pair (list class, DogmaticDict class) while the stored value
stays the fixed mapping, and a second mismatching assignment of a string
overwrites the single entry. -/
theorem claim5_typechange_recording_witness :
    type_changed (DVal.list []) (DVal.dogdict [] [("b", DVal.int 1)] []) =
      true ∧
    type_changed (DVal.str "s") (DVal.dogdict [] [("b", DVal.int 1)] []) =
      true ∧
    (DogmaticDict.setItem
        ⟨[], [("a", DVal.dogdict [] [("b", DVal.int 1)] [])], []⟩ "a"
        (DVal.list [])).tchanges =
      [("a", PyType.list, PyType.dogmaticDict)] ∧
    lookupA (DogmaticDict.setItem
        ⟨[], [("a", DVal.dogdict [] [("b", DVal.int 1)] [])], []⟩ "a"
        (DVal.list [])).entries "a" =
      some (DVal.dogdict [] [("b", DVal.int 1)] []) ∧
    ((DogmaticDict.setItem
        ⟨[], [("a", DVal.dogdict [] [("b", DVal.int 1)] [])], []⟩ "a"
        (DVal.list [])).setItem "a" (DVal.str "s")).tchanges =
      [("a", PyType.str, PyType.dogmaticDict)] := by
  have h := claim5_typechange_recording
    ⟨[], [("a", DVal.dogdict [] [("b", DVal.int 1)] [])], []⟩ "a"
    (DVal.list []) (DVal.list []) (DVal.str "s")
    (DVal.dogdict [] [("b", DVal.int 1)] []) rfl
  refine ⟨rfl, rfl, ?_, (h.1 rfl).2, ?_⟩
  · have hh := (h.1 rfl).1
    simpa [setA] using hh
  · have hh := h.2.2 rfl rfl
    simpa [setA] using hh

/-! Groundwork for the protection and completeness invariants. -/

/-- Lookup in dogmatized entries is the dogmatized lookup. -/
theorem lookupA_dogmatizeEntries (es : List (String × Val)) (k : String) :
    lookupA (dogmatizeEntries es) k = (lookupA es k).map dogmatize := by
  induction es with
  | nil => simp [dogmatizeEntries, lookupA]
  | cons p rest ih =>
      obtain ⟨k1, w⟩ := p
      by_cases h : k1 = k <;> simp [dogmatizeEntries, lookupA, h, ih]

/-- Lookup in undogmatized entries is the undogmatized lookup. -/
theorem lookupA_undogmatizeEntries (es : List (String × DVal)) (k : String) :
    lookupA (undogmatizeEntries es) k = (lookupA es k).map undogmatize := by
  induction es with
  | nil => simp [undogmatizeEntries, lookupA]
  | cons p rest ih =>
      obtain ⟨k1, w⟩ := p
      by_cases h : k1 = k <;> simp [undogmatizeEntries, lookupA, h, ih]

/-- The mapping depth of any value of an entry list is bounded by the
entry-list depth. -/
theorem dictDepth_lookupA (es : List (String × Val)) (k : String) (v : Val)
    (h : lookupA es k = some v) : dictDepth v ≤ dictDepthEntries es := by
  induction es with
  | nil => simp [lookupA] at h
  | cons p rest ih =>
      obtain ⟨k1, w⟩ := p
      by_cases h1 : k1 = k
      · simp [lookupA, h1] at h
        subst h
        simp only [dictDepthEntries]
        exact le_max_left _ _
      · simp [lookupA, h1] at h
        have hle := ih h
        simp only [dictDepthEntries]
        exact le_trans hle (le_max_right _ _)

/-- The dogmatic projection of any plain tree satisfies the protection
invariant against that tree. -/
theorem fxv_dogmatize : ∀ v : Val, FxV (dogmatize v) v
  | .int n => FxV.scalar _ rfl
  | .bool b => FxV.scalar _ rfl
  | .str s => FxV.scalar _ rfl
  | .none => FxV.scalar _ rfl
  | .list xs => FxV.scalar _ rfl
  | .tuple xs => FxV.scalar _ rfl
  | .dict es => by
      have hd : dogmatize (Val.dict es) =
          .dogdict [] (dogmatizeEntries es) [] := by
        simp [dogmatize]
      rw [hd]
      refine FxV.dict [] (dogmatizeEntries es) [] es ?_ ?_ ?_ ?_
      · intro k dv h
        rw [lookupA_dogmatizeEntries] at h
        cases hes : lookupA es k with
        | none => rw [hes] at h; simp at h
        | some w => simp [memA, hes]
      · intro k dv v h hv
        rw [lookupA_dogmatizeEntries, hv] at h
        simp at h
        have hs := sizeOf_lookupA es k v hv
        exact h ▸ fxv_dogmatize v
      · intro k v h
        simp [memA, lookupA_dogmatizeEntries, h]
      · intro k dv h hm
        simp [memA, lookupA] at hm
termination_by v => sizeOf v
decreasing_by
  simp_wf <;> omega

/-- Membership gives a looked-up value. -/
theorem memA_lookup {α : Type} (l : List (String × α)) (k : String)
    (h : memA l k = true) : ∃ v, lookupA l k = some v := by
  unfold memA at h
  cases hl : lookupA l k with
  | none => rw [hl] at h; simp at h
  | some v => exact ⟨v, rfl⟩

/-- Inversion of the protection invariant at a DogmaticDict node. -/
theorem fxv_dogdict_inv (ces cfix : List (String × DVal))
    (ctc : List (String × PyType × PyType)) (es : List (String × Val))
    (h : FxV (.dogdict ces cfix ctc) (.dict es)) :
    (∀ k dv, lookupA cfix k = some dv → memA es k = true) ∧
    (∀ k dv v, lookupA cfix k = some dv → lookupA es k = some v →
      FxV dv v) ∧
    (∀ k v, lookupA es k = some v → memA cfix k = true) ∧
    (∀ k dv, lookupA cfix k = some dv → memA ces k = true →
      lookupA ces k = some dv) := by
  generalize hdv : DVal.dogdict ces cfix ctc = dv at h
  cases h with
  | scalar hv =>
      exfalso
      simp_all [isDictV]
  | dict ces2 cfix2 ctc2 es2 h1 h2 h3 h4 =>
      injection hdv with e1 e2 e3
      subst e1
      subst e2
      subst e3
      exact ⟨h1, h2, h3, h4⟩

/-- A value protecting a non-mapping subtree is exactly its dogmatic
projection. -/
theorem fxv_nondict_inv (dv : DVal) (v : Val) (h : FxV dv v)
    (hv : isDictV v = false) : dv = dogmatize v := by
  cases h with
  | scalar w hw => rfl
  | dict ces cfix ctc es h1 h2 h3 h4 => simp [isDictV] at hv

/-- A DogmaticDict node can only protect a mapping subtree. -/
theorem fxv_dogdict_val (ces cfix : List (String × DVal))
    (ctc : List (String × PyType × PyType)) (v : Val)
    (h : FxV (.dogdict ces cfix ctc) v) : ∃ es0, v = .dict es0 := by
  generalize hdv : DVal.dogdict ces cfix ctc = dv at h
  cases h with
  | scalar hw =>
      exfalso
      cases v <;> simp_all [dogmatize, isDictV]
  | dict _ _ _ es0 h1 h2 h3 h4 => exact ⟨es0, rfl⟩

/-- The dogmatic projection of a non-mapping value is never a
DogmaticDict. -/
theorem isDogDict_dogmatize (v : Val) (hv : isDictV v = false) :
    isDogDict (dogmatize v) = false := by
  cases v <;> simp_all [dogmatize, isDogDict, isDictV]

/-- Dispatch lemma for setItem at a fixed key: either there is no recursive
merge and the store keeps the fixed value, updating at most the type-change
entry of the key, or the fixed value is a DogmaticDict, the supplied value
is dict-like, and the store performs the recursive merge, writing the merged
child to both slots and appending the dotted child record. -/
theorem setItem_fixed_eq (st : DogmaticDict) (key : String) (value fv : DVal)
    (hfx : lookupA st.fixd key = some fv) :
    ((isDogDict fv = false ∨ isDictInst value = false) ∧
      st.setItem key value =
        ⟨setA st.entries key fv, st.fixd,
         if type_changed value fv then
           setA st.tchanges key (pyTypeOf value, pyTypeOf fv)
         else st.tchanges⟩) ∨
    (∃ ces2 cfix2 ctc2, fv = .dogdict ces2 cfix2 ctc2 ∧
      isDictInst value = true ∧
      st.setItem key value =
        ⟨setA st.entries key
            (.dogdict
              (DogmaticDict.updateItems ⟨ces2, cfix2, ctc2⟩
                (dictItems value)).entries
              (DogmaticDict.updateItems ⟨ces2, cfix2, ctc2⟩
                (dictItems value)).fixd
              (DogmaticDict.updateItems ⟨ces2, cfix2, ctc2⟩
                (dictItems value)).tchanges),
         setA st.fixd key
            (.dogdict
              (DogmaticDict.updateItems ⟨ces2, cfix2, ctc2⟩
                (dictItems value)).entries
              (DogmaticDict.updateItems ⟨ces2, cfix2, ctc2⟩
                (dictItems value)).fixd
              (DogmaticDict.updateItems ⟨ces2, cfix2, ctc2⟩
                (dictItems value)).tchanges),
         (DogmaticDict.updateItems ⟨ces2, cfix2, ctc2⟩
             (dictItems value)).tchanges.foldl
           (fun acc kp => setA acc (key ++ "." ++ kp.1) kp.2)
           (if type_changed value fv then
             setA st.tchanges key (pyTypeOf value, pyTypeOf fv)
           else st.tchanges)⟩) := by
  cases fv <;> cases value <;>
    simp [DogmaticDict.setItem, hfx, setA_setA, isDogDict, isDictInst,
      dictItems] <;>
    exact ⟨_, _, _, ⟨rfl, rfl, rfl⟩, rfl, rfl, rfl⟩

/-- setItem changes the entry list and the _fixed list only at the stored
key. -/
theorem setItem_frame (st : DogmaticDict) (key k0 : String) (v : DVal)
    (hne : k0 ≠ key) :
    lookupA (st.setItem key v).entries k0 = lookupA st.entries k0 ∧
    lookupA (st.setItem key v).fixd k0 = lookupA st.fixd k0 := by
  cases hfx : lookupA st.fixd key with
  | none => simp [DogmaticDict.setItem, hfx, lookupA_setA_ne _ _ _ _ hne]
  | some fv =>
      cases fv <;> cases v <;>
        simp [DogmaticDict.setItem, hfx, lookupA_setA_ne _ _ _ _ hne]

/-- setItem never removes keys from the _fixed list. -/
theorem setItem_fixd_mem (st : DogmaticDict) (key k0 : String) (v : DVal)
    (h : memA st.fixd k0 = true) :
    memA (st.setItem key v).fixd k0 = true := by
  cases hfx : lookupA st.fixd key with
  | none => simpa [DogmaticDict.setItem, hfx] using h
  | some fv =>
      cases fv <;> cases v <;>
        simp_all [DogmaticDict.setItem, hfx, memA_setA]

mutual

/-- DogmaticDict.setItem preserves the protection invariant: no store, with
any key and any value, can disturb the protected values. -/
theorem fxv_setItem (value : DVal) (st : DogmaticDict)
    (es : List (String × Val)) (key : String)
    (h : FxV (.dogdict st.entries st.fixd st.tchanges) (.dict es)) :
    FxV (.dogdict (st.setItem key value).entries
      (st.setItem key value).fixd (st.setItem key value).tchanges)
      (.dict es) := by
  obtain ⟨A1, A2, A3, A4⟩ := fxv_dogdict_inv _ _ _ _ h
  cases hfx : lookupA st.fixd key with
  | none =>
      have heq : st.setItem key value =
          ⟨setA st.entries key value, st.fixd, st.tchanges⟩ := by
        simp [DogmaticDict.setItem, hfx]
      rw [heq]
      refine FxV.dict _ _ _ _ A1 A2 A3 ?_
      intro k dw hk hm
      have hne : k ≠ key := by
        intro he
        subst he
        rw [hfx] at hk
        cases hk
      rw [lookupA_setA_ne _ _ _ _ hne]
      rw [memA_setA] at hm
      simp only [if_neg hne] at hm
      exact A4 k dw hk hm
  | some fv =>
      rcases setItem_fixed_eq st key value fv hfx with ⟨hsh, heq⟩ |
        ⟨ces2, cfix2, ctc2, hfv, hdict, heq⟩
      · rw [heq]
        refine FxV.dict _ _ _ _ A1 A2 A3 ?_
        intro k dw hk hm
        by_cases hkk : k = key
        · subst hkk
          rw [hfx] at hk
          injection hk with hk2
          subst hk2
          exact lookupA_setA_self _ _ _
        · rw [lookupA_setA_ne _ _ _ _ hkk]
          rw [memA_setA] at hm
          simp only [if_neg hkk] at hm
          exact A4 k dw hk hm
      · subst hfv
        have hmemes : memA es key = true := A1 key _ hfx
        obtain ⟨v0, hv0⟩ := memA_lookup es key hmemes
        have hfxv : FxV (.dogdict ces2 cfix2 ctc2) v0 := A2 key _ v0 hfx hv0
        obtain ⟨es0, hes0⟩ := fxv_dogdict_val _ _ _ _ hfxv
        subst hes0
        have hchild := fxv_updateItems (dictItems value)
          ⟨ces2, cfix2, ctc2⟩ es0 hfxv
        rw [heq]
        refine FxV.dict _ _ _ _ ?_ ?_ ?_ ?_
        · intro k dw hk
          by_cases hkk : k = key
          · subst hkk
            exact hmemes
          · rw [lookupA_setA_ne _ _ _ _ hkk] at hk
            exact A1 k dw hk
        · intro k dw v hk hv
          by_cases hkk : k = key
          · subst hkk
            rw [lookupA_setA_self] at hk
            injection hk with hk2
            subst hk2
            rw [hv0] at hv
            injection hv with hv2
            subst hv2
            exact hchild
          · rw [lookupA_setA_ne _ _ _ _ hkk] at hk
            exact A2 k dw v hk hv
        · intro k v hv
          rw [memA_setA]
          by_cases hkk : k = key
          · simp only [if_pos hkk]
          · simp only [if_neg hkk]
            exact A3 k v hv
        · intro k dw hk hm
          by_cases hkk : k = key
          · subst hkk
            rw [lookupA_setA_self] at hk
            rw [lookupA_setA_self]
            exact hk
          · rw [lookupA_setA_ne _ _ _ _ hkk] at hk
            rw [lookupA_setA_ne _ _ _ _ hkk]
            rw [memA_setA] at hm
            simp only [if_neg hkk] at hm
            exact A4 k dw hk hm
termination_by sizeOf value
decreasing_by
  simp_wf
  cases value with
  | dict ves =>
      simp only [dictItems]
      simp <;> omega
  | dogdict ves vfx vtc =>
      simp only [dictItems]
      simp <;> omega
  | int n => simp [isDictInst] at hdict
  | bool b => simp [isDictInst] at hdict
  | str s => simp [isDictInst] at hdict
  | none => simp [isDictInst] at hdict
  | list xs => simp [isDictInst] at hdict
  | tuple xs => simp [isDictInst] at hdict
  | doglist xs => simp [isDictInst] at hdict

/-- The recursive-update loop preserves the protection invariant. -/
theorem fxv_updateItems (items : List (String × DVal)) (st : DogmaticDict)
    (es : List (String × Val))
    (h : FxV (.dogdict st.entries st.fixd st.tchanges) (.dict es)) :
    FxV (.dogdict (DogmaticDict.updateItems st items).entries
      (DogmaticDict.updateItems st items).fixd
      (DogmaticDict.updateItems st items).tchanges) (.dict es) := by
  match items with
  | [] => simpa [DogmaticDict.updateItems] using h
  | (k, v) :: rest =>
      have h1 := fxv_setItem v st es k h
      have h2 := fxv_updateItems rest (st.setItem k v) es h1
      simpa [DogmaticDict.updateItems] using h2
termination_by sizeOf items
decreasing_by
  all_goals simp_wf <;> omega

end

/-- DogmaticDict.__delitem__ preserves the protection invariant. -/
theorem fxv_delItem (st : DogmaticDict) (es : List (String × Val))
    (key : String)
    (h : FxV (.dogdict st.entries st.fixd st.tchanges) (.dict es)) :
    FxV (.dogdict (st.delItem key).entries (st.delItem key).fixd
      (st.delItem key).tchanges) (.dict es) := by
  obtain ⟨A1, A2, A3, A4⟩ := fxv_dogdict_inv _ _ _ _ h
  by_cases hm : memA st.fixd key = true
  · simpa [DogmaticDict.delItem, hm] using h
  · have heq : st.delItem key =
        ⟨eraseA st.entries key, st.fixd, st.tchanges⟩ := by
      simp [DogmaticDict.delItem, hm]
    rw [heq]
    refine FxV.dict _ _ _ _ A1 A2 A3 ?_
    intro k dw hk hmm
    have hne : k ≠ key := by
      intro he
      subst he
      simp [memA, hk] at hm
    have hE := lookupA_eraseA_ne st.entries key k hne
    have hmm2 : memA st.entries k = true := by
      unfold memA at hmm ⊢
      rw [hE] at hmm
      exact hmm
    rw [hE]
    exact A4 k dw hk hmm2

/-- A value protecting a mapping subtree is necessarily a DogmaticDict. -/
theorem fxv_dict_shape (dv : DVal) (es0 : List (String × Val))
    (h : FxV dv (.dict es0)) :
    ∃ ces cfix ctc, dv = .dogdict ces cfix ctc := by
  cases h with
  | scalar =>
      rename_i hv
      simp [isDictV] at hv
  | dict ces cfix ctc es h1 h2 h3 h4 => exact ⟨ces, cfix, ctc, rfl⟩

mutual

/-- The revelation pass, run with fuel at least the mapping depth of the
protected subtree, preserves the protection invariant and afterwards the
node realizes every protected path (it is complete). -/
theorem rev_complete (fuel : Nat) (st : DogmaticDict)
    (es : List (String × Val))
    (h : FxV (.dogdict st.entries st.fixd st.tchanges) (.dict es))
    (hf : dictDepth (Val.dict es) ≤ fuel) :
    FxV (.dogdict (DogmaticDict.revelation fuel st).1.entries
      (DogmaticDict.revelation fuel st).1.fixd
      (DogmaticDict.revelation fuel st).1.tchanges) (.dict es) ∧
    CompV (.dogdict (DogmaticDict.revelation fuel st).1.entries
      (DogmaticDict.revelation fuel st).1.fixd
      (DogmaticDict.revelation fuel st).1.tchanges) (.dict es) := by
  match fuel with
  | 0 =>
      exfalso
      simp [dictDepth] at hf
  | f + 1 =>
      have hf2 : dictDepthEntries es ≤ f := by
        simp [dictDepth] at hf
        omega
      have hkeys : ∀ k, k ∈ st.fixd.map Prod.fst → memA st.fixd k = true :=
        fun k hk => (memA_map_fst st.fixd k).1 hk
      have hrk := revKeys_complete f st es (st.fixd.map Prod.fst) h hkeys hf2
      have hrw : DogmaticDict.revelation (f + 1) st =
          DogmaticDict.revelationKeys f st (st.fixd.map Prod.fst) := by
        simp [DogmaticDict.revelation]
      rw [hrw]
      obtain ⟨A1, A2, A3, A4⟩ := fxv_dogdict_inv _ _ _ _ h
      refine ⟨hrk.1, CompV.dict _ _ _ _ ?_ ?_⟩
      · intro k v hv
        have hmf : memA st.fixd k = true := A3 k v hv
        have hkmem : k ∈ st.fixd.map Prod.fst :=
          (memA_map_fst st.fixd k).2 hmf
        obtain ⟨dv, hdv, hcv⟩ := hrk.2.1 k hkmem v hv
        simp [memA, hdv]
      · intro k v dv hv hdv
        have hmf : memA st.fixd k = true := A3 k v hv
        have hkmem : k ∈ st.fixd.map Prod.fst :=
          (memA_map_fst st.fixd k).2 hmf
        obtain ⟨dv2, hdv2, hcv2⟩ := hrk.2.1 k hkmem v hv
        rw [hdv2] at hdv
        injection hdv with he
        subst he
        exact hcv2
termination_by (fuel, 0, 0)

/-- The revelation loop over a list of fixed keys: the invariant is
preserved, every processed protected key is afterwards present with a
complete value, and entries at keys outside the list are untouched. -/
theorem revKeys_complete (fuel : Nat) (st : DogmaticDict)
    (es : List (String × Val)) (keys : List String)
    (h : FxV (.dogdict st.entries st.fixd st.tchanges) (.dict es))
    (hkeys : ∀ k, k ∈ keys → memA st.fixd k = true)
    (hf : dictDepthEntries es ≤ fuel) :
    FxV (.dogdict (DogmaticDict.revelationKeys fuel st keys).1.entries
      (DogmaticDict.revelationKeys fuel st keys).1.fixd
      (DogmaticDict.revelationKeys fuel st keys).1.tchanges) (.dict es) ∧
    (∀ k, k ∈ keys → ∀ v, lookupA es k = some v →
      ∃ dv, lookupA (DogmaticDict.revelationKeys fuel st keys).1.entries k =
          some dv ∧ CompV dv v) ∧
    (∀ k, k ∉ keys →
      lookupA (DogmaticDict.revelationKeys fuel st keys).1.entries k =
        lookupA st.entries k ∧
      lookupA (DogmaticDict.revelationKeys fuel st keys).1.fixd k =
        lookupA st.fixd k) := by
  match keys with
  | [] =>
      have hrw : DogmaticDict.revelationKeys fuel st [] = (st, []) := by
        simp [DogmaticDict.revelationKeys]
      rw [hrw]
      exact ⟨h, by simp, fun k _ => ⟨rfl, rfl⟩⟩
  | key :: rest =>
      have hmk : memA st.fixd key = true := hkeys key (by simp)
      obtain ⟨fv, hfv⟩ := memA_lookup st.fixd key hmk
      obtain ⟨A1, A2, A3, A4⟩ := fxv_dogdict_inv _ _ _ _ h
      have hmes : memA es key = true := A1 key fv hfv
      obtain ⟨v0, hv0⟩ := memA_lookup es key hmes
      have hdep : dictDepth v0 ≤ fuel :=
        le_trans (dictDepth_lookupA es key v0 hv0) hf
      set stA := if memA st.entries key = true then st
        else st.setItem key fv with hstA
      have hstep : DogmaticDict.revelationKeys fuel st (key :: rest) =
          ((DogmaticDict.revelationKeys fuel
              (DogmaticDict.revealChild fuel stA key).1 rest).1,
           (if memA st.entries key = true then ([] : List String)
             else [key]) ++
             (DogmaticDict.revealChild fuel stA key).2 ++
             (DogmaticDict.revelationKeys fuel
               (DogmaticDict.revealChild fuel stA key).1 rest).2) := by
        simp only [DogmaticDict.revelationKeys]
        rw [hfv]
        by_cases hmemE : memA st.entries key = true <;>
          simp [hstA, hmemE]
      have hFxA : FxV (.dogdict stA.entries stA.fixd stA.tchanges)
          (.dict es) := by
        by_cases hmemE : memA st.entries key = true
        · simpa [hstA, hmemE] using h
        · simpa [hstA, hmemE] using fxv_setItem fv st es key h
      have hmemA : memA stA.entries key = true := by
        by_cases hmemE : memA st.entries key = true
        · simpa [hstA, hmemE] using hmemE
        · simpa [hstA, hmemE] using memA_setItem_self st key fv
      have hframeA : ∀ k, k ≠ key →
          lookupA stA.entries k = lookupA st.entries k ∧
          lookupA stA.fixd k = lookupA st.fixd k := by
        intro k hne
        by_cases hmemE : memA st.entries key = true
        · simp [hstA, hmemE]
        · simpa [hstA, hmemE] using setItem_frame st key k fv hne
      obtain ⟨hF2, hcomp2, hfr2, hfm2⟩ :=
        revealChild_spec fuel stA key es v0 hFxA hv0 hmemA hdep
      obtain ⟨dv2, hdv2, hcv2⟩ := hcomp2
      have hkeysB : ∀ k, k ∈ rest →
          memA (DogmaticDict.revealChild fuel stA key).1.fixd k = true := by
        intro k hk
        by_cases hkk : k = key
        · subst hkk
          exact hfm2
        · have h1 := (hfr2 k hkk).2
          have h2 := (hframeA k hkk).2
          have h3 := hkeys k (by simp [hk])
          unfold memA at h3 ⊢
          rw [h1, h2]
          exact h3
      obtain ⟨hF3, hC3, hfr3⟩ := revKeys_complete fuel
        (DogmaticDict.revealChild fuel stA key).1 es rest hF2 hkeysB hf
      rw [hstep]
      refine ⟨hF3, ?_, ?_⟩
      · intro k hk v hv
        by_cases hkr : k ∈ rest
        · exact hC3 k hkr v hv
        · have hkey : k = key := by
            rcases List.mem_cons.mp hk with he | he
            · exact he
            · exact absurd he hkr
          subst hkey
          rw [hv0] at hv
          injection hv with he
          subst he
          refine ⟨dv2, ?_, hcv2⟩
          rw [(hfr3 k hkr).1]
          exact hdv2
      · intro k hk
        have hne : k ≠ key := fun he => hk (he ▸ List.mem_cons_self k rest)
        have hnr : k ∉ rest := fun he => hk (List.mem_cons_of_mem key he)
        refine ⟨?_, ?_⟩
        · rw [(hfr3 k hnr).1, (hfr2 k hne).1, (hframeA k hne).1]
        · rw [(hfr3 k hnr).2, (hfr2 k hne).2, (hframeA k hne).2]
termination_by (fuel, 1, keys.length)

/-- The child-recursion step of the revelation loop: it preserves the
invariant, leaves the key present with a complete value (recursing when the
protected subtree is a mapping), touches no other key, and keeps the key in
the _fixed list. -/
theorem revealChild_spec (fuel : Nat) (st : DogmaticDict) (key : String)
    (es : List (String × Val)) (v0 : Val)
    (h : FxV (.dogdict st.entries st.fixd st.tchanges) (.dict es))
    (hv0 : lookupA es key = some v0)
    (hmem : memA st.entries key = true)
    (hdep : dictDepth v0 ≤ fuel) :
    FxV (.dogdict (DogmaticDict.revealChild fuel st key).1.entries
      (DogmaticDict.revealChild fuel st key).1.fixd
      (DogmaticDict.revealChild fuel st key).1.tchanges) (.dict es) ∧
    (∃ dv, lookupA (DogmaticDict.revealChild fuel st key).1.entries key =
        some dv ∧ CompV dv v0) ∧
    (∀ k, k ≠ key →
      lookupA (DogmaticDict.revealChild fuel st key).1.entries k =
        lookupA st.entries k ∧
      lookupA (DogmaticDict.revealChild fuel st key).1.fixd k =
        lookupA st.fixd k) ∧
    memA (DogmaticDict.revealChild fuel st key).1.fixd key = true := by
  obtain ⟨A1, A2, A3, A4⟩ := fxv_dogdict_inv _ _ _ _ h
  have hmf : memA st.fixd key = true := A3 key v0 hv0
  obtain ⟨dv, hdv⟩ := memA_lookup st.fixd key hmf
  have hent : lookupA st.entries key = some dv := A4 key dv hdv hmem
  have hfxv : FxV dv v0 := A2 key dv v0 hdv hv0
  by_cases hdict : isDictV v0 = true
  · obtain ⟨es0, hes0⟩ : ∃ es0, v0 = Val.dict es0 := by
      cases v0 <;> simp [isDictV] at hdict
      exact ⟨_, rfl⟩
    subst hes0
    obtain ⟨ces, cfix, ctc, hdvd⟩ := fxv_dict_shape dv es0 hfxv
    subst hdvd
    have hrec := rev_complete fuel ⟨ces, cfix, ctc⟩ es0 hfxv hdep
    have hres : DogmaticDict.revealChild fuel st key =
        (⟨setA st.entries key
            (.dogdict
              (DogmaticDict.revelation fuel ⟨ces, cfix, ctc⟩).1.entries
              (DogmaticDict.revelation fuel ⟨ces, cfix, ctc⟩).1.fixd
              (DogmaticDict.revelation fuel ⟨ces, cfix, ctc⟩).1.tchanges),
          setA st.fixd key
            (.dogdict
              (DogmaticDict.revelation fuel ⟨ces, cfix, ctc⟩).1.entries
              (DogmaticDict.revelation fuel ⟨ces, cfix, ctc⟩).1.fixd
              (DogmaticDict.revelation fuel ⟨ces, cfix, ctc⟩).1.tchanges),
          st.tchanges⟩,
         (DogmaticDict.revelation fuel ⟨ces, cfix, ctc⟩).2.map
           (fun k => key ++ "." ++ k)) := by
      unfold DogmaticDict.revealChild
      rw [hent]
    rw [hres]
    refine ⟨?_, ⟨_, lookupA_setA_self _ _ _, hrec.2⟩, ?_, ?_⟩
    · refine FxV.dict _ _ _ _ ?_ ?_ ?_ ?_
      · intro k dw hk
        by_cases hkk : k = key
        · subst hkk
          simp [memA, hv0]
        · rw [lookupA_setA_ne _ _ _ _ hkk] at hk
          exact A1 k dw hk
      · intro k dw v hk hv
        by_cases hkk : k = key
        · subst hkk
          rw [lookupA_setA_self] at hk
          injection hk with hk2
          subst hk2
          rw [hv0] at hv
          injection hv with hv2
          subst hv2
          exact hrec.1
        · rw [lookupA_setA_ne _ _ _ _ hkk] at hk
          exact A2 k dw v hk hv
      · intro k v hv
        rw [memA_setA]
        by_cases hkk : k = key
        · simp only [if_pos hkk]
        · simp only [if_neg hkk]
          exact A3 k v hv
      · intro k dw hk hmm
        by_cases hkk : k = key
        · subst hkk
          rw [lookupA_setA_self] at hk
          rw [lookupA_setA_self]
          exact hk
        · rw [lookupA_setA_ne _ _ _ _ hkk] at hk
          rw [lookupA_setA_ne _ _ _ _ hkk]
          rw [memA_setA] at hmm
          simp only [if_neg hkk] at hmm
          exact A4 k dw hk hmm
    · intro k hkk
      exact ⟨lookupA_setA_ne _ _ _ _ hkk, lookupA_setA_ne _ _ _ _ hkk⟩
    · rw [memA_setA]
      simp
  · have hnd : isDictV v0 = false := by
      simpa using hdict
    have hdvd : dv = dogmatize v0 := fxv_nondict_inv dv v0 hfxv hnd
    have hdog : isDogDict dv = false := by
      rw [hdvd]
      exact isDogDict_dogmatize v0 hnd
    have hres : DogmaticDict.revealChild fuel st key = (st, []) := by
      unfold DogmaticDict.revealChild
      rw [hent]
      cases dv <;> first
        | rfl
        | simp [isDogDict] at hdog
    rw [hres]
    refine ⟨h, ⟨dv, hent, ?_⟩, fun k _ => ⟨rfl, rfl⟩, hmf⟩
    rw [hdvd]
    exact CompV.scalar v0 hnd
termination_by (fuel, 0, 1)

end

/-- Inversion of completeness at a DogmaticDict node. -/
theorem compv_dogdict_inv (ces cfix : List (String × DVal))
    (ctc : List (String × PyType × PyType)) (es : List (String × Val))
    (h : CompV (.dogdict ces cfix ctc) (.dict es)) :
    (∀ k v, lookupA es k = some v → memA ces k = true) ∧
    (∀ k v dv, lookupA es k = some v → lookupA ces k = some dv →
      CompV dv v) := by
  generalize hdv : DVal.dogdict ces cfix ctc = dv at h
  cases h with
  | scalar hv =>
      exfalso
      simp_all [isDictV]
  | dict ces2 cfix2 ctc2 es2 h1 h2 =>
      injection hdv with e1 e2 e3
      subst e1
      subst e2
      subst e3
      exact ⟨h1, h2⟩

/-- A complete value for a non-mapping subtree is its exact dogmatic
projection. -/
theorem compv_nondict_inv (dv : DVal) (v : Val) (h : CompV dv v)
    (hv : isDictV v = false) : dv = dogmatize v := by
  cases h with
  | scalar => rfl
  | dict ces cfix ctc es h1 h2 => simp [isDictV] at hv

/-- Path realization: every dotted path of the protected subtree is present
in a complete node, with a complete value. -/
theorem compv_path (p : List String) : ∀ (dv : DVal) (v0 v : Val),
    CompV dv v0 → lookPathV v0 p = some v →
    ∃ dw, lookPathD dv p = some dw ∧ CompV dw v := by
  induction p with
  | nil =>
      intro dv v0 v hc hp
      simp [lookPathV] at hp
      subst hp
      exact ⟨dv, by simp [lookPathD], hc⟩
  | cons k rest ih =>
      intro dv v0 v hc hp
      cases v0 with
      | dict es0 =>
          simp only [lookPathV] at hp
          cases hk : lookupA es0 k with
          | none =>
              rw [hk] at hp
              simp at hp
          | some v1 =>
              rw [hk] at hp
              obtain ⟨ces, cfix, ctc, hdvd⟩ : ∃ ces cfix ctc,
                  dv = DVal.dogdict ces cfix ctc := by
                cases hc with
                | scalar =>
                    rename_i hw
                    simp [isDictV] at hw
                | dict ces cfix ctc h1 h2 => exact ⟨ces, cfix, ctc, rfl⟩
              subst hdvd
              obtain ⟨hA, hB⟩ := compv_dogdict_inv ces cfix ctc es0 hc
              obtain ⟨dw1, hdw1⟩ := memA_lookup ces k (hA k v1 hk)
              have hcv1 := hB k v1 dw1 hk hdw1
              obtain ⟨dw, hdw, hcw⟩ := ih dw1 v1 v hcv1 hp
              refine ⟨dw, ?_, hcw⟩
              simp [lookPathD, hdw1, hdw]
      | int n => simp [lookPathV] at hp
      | bool b => simp [lookPathV] at hp
      | str s => simp [lookPathV] at hp
      | none => simp [lookPathV] at hp
      | list xs => simp [lookPathV] at hp
      | tuple xs => simp [lookPathV] at hp

/-- Path realization survives undogmatize: along protected paths all the
intermediate nodes are DogmaticDicts, which undogmatize converts to plain
dicts entry-wise, so the path stays present. -/
theorem compv_path_undog (p : List String) : ∀ (dv : DVal) (v0 v : Val),
    CompV dv v0 → lookPathV v0 p = some v →
    (lookPathD (undogmatize dv) p).isSome = true := by
  induction p with
  | nil =>
      intro dv v0 v hc hp
      simp [lookPathD]
  | cons k rest ih =>
      intro dv v0 v hc hp
      cases v0 with
      | dict es0 =>
          simp only [lookPathV] at hp
          cases hk : lookupA es0 k with
          | none =>
              rw [hk] at hp
              simp at hp
          | some v1 =>
              rw [hk] at hp
              obtain ⟨ces, cfix, ctc, hdvd⟩ : ∃ ces cfix ctc,
                  dv = DVal.dogdict ces cfix ctc := by
                cases hc with
                | scalar =>
                    rename_i hw
                    simp [isDictV] at hw
                | dict ces cfix ctc h1 h2 => exact ⟨ces, cfix, ctc, rfl⟩
              subst hdvd
              obtain ⟨hA, hB⟩ := compv_dogdict_inv ces cfix ctc es0 hc
              obtain ⟨dw1, hdw1⟩ := memA_lookup ces k (hA k v1 hk)
              have hcv1 := hB k v1 dw1 hk hdw1
              have hrest := ih dw1 v1 v hcv1 hp
              have hu : undogmatize (DVal.dogdict ces cfix ctc) =
                  .dict (undogmatizeEntries ces) := by
                simp [undogmatize]
              rw [hu]
              simp only [lookPathD, lookupA_undogmatizeEntries, hdw1,
                Option.map_some]
              exact hrest
      | int n => simp [lookPathV] at hp
      | bool b => simp [lookPathV] at hp
      | str s => simp [lookPathV] at hp
      | none => simp [lookPathV] at hp
      | list xs => simp [lookPathV] at hp
      | tuple xs => simp [lookPathV] at hp

/-- Lookup in the built configuration: a non-underscore key is present
exactly when it is present in the environment, with the undogmatized
value. -/
theorem lookupA_buildItems (es : List (String × DVal)) (k : String)
    (hu : startsWithUnderscore k = false) :
    lookupA (buildItems es) k = (lookupA es k).map undogmatize := by
  induction es with
  | nil => simp [buildItems, lookupA]
  | cons p rest ih =>
      obtain ⟨k1, w⟩ := p
      by_cases h1 : k1 = k
      · subst h1
        simp [buildItems, hu, lookupA]
      · by_cases h2 : startsWithUnderscore k1 = true
        · simp [buildItems, h2, lookupA, h1, ih]
        · simp [buildItems, h2, lookupA, h1, ih]

/-- Block execution (assignments and deletions) preserves the protection
invariant. -/
theorem fxv_runStmts (body : List Stmt) (st : DogmaticDict)
    (es : List (String × Val))
    (h : FxV (.dogdict st.entries st.fixd st.tchanges) (.dict es)) :
    FxV (.dogdict (runStmts st body).entries (runStmts st body).fixd
      (runStmts st body).tchanges) (.dict es) := by
  induction body generalizing st with
  | nil => simpa [runStmts] using h
  | cons s rest ih =>
      have h2 : FxV (.dogdict (runStmt st s).entries (runStmt st s).fixd
          (runStmt st s).tchanges) (.dict es) := by
        cases s with
        | assign k v => simpa [runStmt] using fxv_setItem (toDVal v) st es k h
        | del k => simpa [runStmt] using fxv_delItem st es k h
      have h3 := ih (runStmt st s) h2
      simpa [runStmts, List.foldl] using h3

/-- The full evaluation pipeline of ConfigScope.__call__ (dogmatize the
fixed tree, merge the preset, run the block, run revelation) yields an
environment that both protects and realizes the fixed tree. -/
theorem evalEnv_fxv_comp (F : List (String × Val))
    (preset : Option (List (String × Val))) (body : List Stmt) :
    FxV (.dogdict (evalEnv (some F) preset body).1.entries
      (evalEnv (some F) preset body).1.fixd
      (evalEnv (some F) preset body).1.tchanges) (.dict F) ∧
    CompV (.dogdict (evalEnv (some F) preset body).1.entries
      (evalEnv (some F) preset body).1.fixd
      (evalEnv (some F) preset body).1.tchanges) (.dict F) := by
  have h0 : FxV (.dogdict
      (⟨[], dogmatizeEntries F, []⟩ : DogmaticDict).entries
      (⟨[], dogmatizeEntries F, []⟩ : DogmaticDict).fixd
      (⟨[], dogmatizeEntries F, []⟩ : DogmaticDict).tchanges) (.dict F) := by
    have hdg := fxv_dogmatize (Val.dict F)
    simpa [dogmatize] using hdg
  cases preset with
  | none =>
      have h2 := fxv_runStmts body ⟨[], dogmatizeEntries F, []⟩ F h0
      have h3 := rev_complete (dictDepth (Val.dict F))
        (runStmts ⟨[], dogmatizeEntries F, []⟩ body) F h2 (le_refl _)
      have hev : evalEnv (some F) Option.none body =
          DogmaticDict.revelation (dictDepth (Val.dict F))
            (runStmts ⟨[], dogmatizeEntries F, []⟩ body) := by
        simp [evalEnv]
      rw [hev]
      exact h3
  | some p =>
      have h1 : FxV (.dogdict
          (DogmaticDict.update ⟨[], dogmatizeEntries F, []⟩
            (toDValEntries p)).entries
          (DogmaticDict.update ⟨[], dogmatizeEntries F, []⟩
            (toDValEntries p)).fixd
          (DogmaticDict.update ⟨[], dogmatizeEntries F, []⟩
            (toDValEntries p)).tchanges) (.dict F) := by
        simpa [DogmaticDict.update] using
          fxv_updateItems (toDValEntries p) ⟨[], dogmatizeEntries F, []⟩ F h0
      have h2 := fxv_runStmts body
        (DogmaticDict.update ⟨[], dogmatizeEntries F, []⟩ (toDValEntries p))
        F h1
      have h3 := rev_complete (dictDepth (Val.dict F))
        (runStmts (DogmaticDict.update ⟨[], dogmatizeEntries F, []⟩
          (toDValEntries p)) body) F h2 (le_refl _)
      have hev : evalEnv (some F) (some p) body =
          DogmaticDict.revelation (dictDepth (Val.dict F))
            (runStmts (DogmaticDict.update ⟨[], dogmatizeEntries F, []⟩
              (toDValEntries p)) body) := by
        simp [evalEnv]
      rw [hev]
      exact h3

/-- C1 counterexample: with fixed a mapped to dict with b 1, a block that
assigns a dict with b 99 and d 5 to the protected key a leaves the stored
value at a neither equal to the fixed value (the stored mapping contains the
extra key d, absent from the fixed tree) nor equal to the assigned value
(the stored b is still 1, not 99): the recursive merge updates the content
of the protected mapping with free keys, not only the type-change
bookkeeping. -/
theorem claim1_counterexample :
    lookPathD (.dogdict
      (evalEnv (some [("a", Val.dict [("b", Val.int 1)])]) Option.none
        [Stmt.assign "a" (Val.dict [("b", Val.int 99), ("d", Val.int 5)])]
        ).1.entries
      (evalEnv (some [("a", Val.dict [("b", Val.int 1)])]) Option.none
        [Stmt.assign "a" (Val.dict [("b", Val.int 99), ("d", Val.int 5)])]
        ).1.fixd
      (evalEnv (some [("a", Val.dict [("b", Val.int 1)])]) Option.none
        [Stmt.assign "a" (Val.dict [("b", Val.int 99), ("d", Val.int 5)])]
        ).1.tchanges) ["a", "d"] = some (DVal.int 5) ∧
    lookPathV (Val.dict [("a", Val.dict [("b", Val.int 1)])]) ["a", "d"] =
      Option.none ∧
    lookPathD (.dogdict
      (evalEnv (some [("a", Val.dict [("b", Val.int 1)])]) Option.none
        [Stmt.assign "a" (Val.dict [("b", Val.int 99), ("d", Val.int 5)])]
        ).1.entries
      (evalEnv (some [("a", Val.dict [("b", Val.int 1)])]) Option.none
        [Stmt.assign "a" (Val.dict [("b", Val.int 99), ("d", Val.int 5)])]
        ).1.fixd
      (evalEnv (some [("a", Val.dict [("b", Val.int 1)])]) Option.none
        [Stmt.assign "a" (Val.dict [("b", Val.int 99), ("d", Val.int 5)])]
        ).1.tchanges) ["a", "b"] = some (DVal.int 1) := by
  refine ⟨?_, rfl, ?_⟩ <;>
    simp [evalEnv, runStmts, runStmt, List.foldl, toDVal, toDValEntries,
      DogmaticDict.update, DogmaticDict.updateItems, DogmaticDict.setItem,
      DogmaticDict.delItem, lookupA, setA, memA, type_changed, isDogDict,
      isDogList, isDictInst, isListInst, pyTypeOf, dictDepth,
      dictDepthEntries, DogmaticDict.revelation, DogmaticDict.revelationKeys,
      DogmaticDict.revealChild, dogmatize, dogmatizeEntries, dogmatizeList,
      dictItems, lookPathD]

/-- C1 amended: assignments through the declarative block (and the preset)
can never change a protected value.  For every dotted path of the fixed tree
whose fixed value is not a mapping, the value stored in the evaluation
environment at that path is exactly the dogmatic projection of the fixed
value, whatever the block assigned; protected mapping values stay protected
mappings whose fixed descendants keep their fixed values, though the
recursive merge may additionally store free keys inside them (and the
type-change bookkeeping may be updated). -/
theorem claim1_protected_keys_amended (F : List (String × Val))
    (preset : Option (List (String × Val))) (body : List Stmt)
    (p : List String) (v : Val)
    (hp : lookPathV (Val.dict F) p = some v)
    (hv : isDictV v = false) :
    lookPathD (.dogdict (evalEnv (some F) preset body).1.entries
      (evalEnv (some F) preset body).1.fixd
      (evalEnv (some F) preset body).1.tchanges) p =
      some (dogmatize v) := by
  obtain ⟨hF, hC⟩ := evalEnv_fxv_comp F preset body
  obtain ⟨dw, hdw, hcw⟩ := compv_path p _ _ v hC hp
  have he : dw = dogmatize v := compv_nondict_inv dw v hcw hv
  rw [he] at hdw
  exact hdw

/-- Witness for C1 amended at a concrete input: the scalar fixed value at
the path a survives a block that assigns 99 over it. -/
theorem claim1_protected_keys_amended_witness :
    lookPathV (Val.dict [("a", Val.int 1)]) ["a"] = some (Val.int 1) ∧
    isDictV (Val.int 1) = false ∧
    lookPathD (.dogdict
      (evalEnv (some [("a", Val.int 1)]) Option.none
        [Stmt.assign "a" (Val.int 99)]).1.entries
      (evalEnv (some [("a", Val.int 1)]) Option.none
        [Stmt.assign "a" (Val.int 99)]).1.fixd
      (evalEnv (some [("a", Val.int 1)]) Option.none
        [Stmt.assign "a" (Val.int 99)]).1.tchanges) ["a"] =
      some (dogmatize (Val.int 1)) :=
  ⟨rfl, rfl,
   claim1_protected_keys_amended [("a", Val.int 1)] Option.none
     [Stmt.assign "a" (Val.int 99)] ["a"] (Val.int 1) rfl rfl⟩

/-- C2 counterexample: a fixed key starting with the private marker is
installed by revelation but filtered out of the final configuration, so the
final mapping is not a superset of the fixed tree paths. -/
theorem claim2_counterexample :
    lookPathV (Val.dict [("_x", Val.int 1)]) ["_x"] = some (Val.int 1) ∧
    lookPathD (.dict (ConfigScope.call ⟨[], false, [], [], []⟩
      (some [("_x", Val.int 1)]) Option.none).items) ["_x"] =
      Option.none ∧
    (ConfigScope.call ⟨[], false, [], [], []⟩
      (some [("_x", Val.int 1)]) Option.none).items = [] := by
  refine ⟨rfl, ?_, ?_⟩ <;>
    simp [ConfigScope.call, evalEnv, runStmts, runStmt, List.foldl, toDVal,
      toDValEntries, DogmaticDict.update, DogmaticDict.updateItems,
      DogmaticDict.setItem, DogmaticDict.delItem, lookupA, setA, memA,
      type_changed, isDogDict, isDogList, isDictInst, isListInst, pyTypeOf,
      dictDepth, dictDepthEntries, DogmaticDict.revelation,
      DogmaticDict.revelationKeys, DogmaticDict.revealChild, dogmatize,
      dogmatizeEntries, dogmatizeList, buildItems, undogmatize,
      undogmatizeEntries, undogmatizeList, dictItems, startsWithUnderscore,
      lookPathD]

/-- C2 amended: after evaluation, every dotted path reachable in the fixed
tree whose top-level key does not start with an underscore is present in the
final configuration mapping, whether or not the block mentioned it; paths
under an underscore-named top-level key are installed by revelation but
removed by the private-name filter of the result loop. -/
theorem claim2_revelation_completeness_amended (F : List (String × Val))
    (preset : Option (List (String × Val))) (body : List Stmt)
    (init0 : Bool) (items0 : List (String × DVal)) (av0 : List String)
    (tc0 : List (String × PyType × PyType))
    (k : String) (rest : List String) (v : Val)
    (hp : lookPathV (Val.dict F) (k :: rest) = some v)
    (hu : startsWithUnderscore k = false) :
    (lookPathD (.dict (ConfigScope.call ⟨body, init0, items0, av0, tc0⟩
      (some F) preset).items) (k :: rest)).isSome = true := by
  obtain ⟨hF, hC⟩ := evalEnv_fxv_comp F preset body
  have hitems : (ConfigScope.call ⟨body, init0, items0, av0, tc0⟩
      (some F) preset).items =
      buildItems (evalEnv (some F) preset body).1.entries := by
    simp [ConfigScope.call]
  rw [hitems]
  simp only [lookPathV] at hp
  cases hk : lookupA F k with
  | none =>
      rw [hk] at hp
      simp at hp
  | some vk =>
      rw [hk] at hp
      obtain ⟨hA, hB⟩ := compv_dogdict_inv _ _ _ _ hC
      obtain ⟨dv1, hdv1⟩ := memA_lookup _ k (hA k vk hk)
      have hcv1 := hB k vk dv1 hk hdv1
      have hrest := compv_path_undog rest dv1 vk v hcv1 hp
      simp only [lookPathD, lookupA_buildItems _ _ hu, hdv1,
        Option.map_some]
      exact hrest

/-- Witness for C2 amended at a concrete input: the nested fixed path n.k
is present in the final configuration although the block never mentioned
n. -/
theorem claim2_revelation_completeness_amended_witness :
    lookPathV (Val.dict [("n", Val.dict [("k", Val.int 1)])]) ["n", "k"] =
      some (Val.int 1) ∧
    startsWithUnderscore "n" = false ∧
    (lookPathD (.dict (ConfigScope.call ⟨[], false, [], [], []⟩
      (some [("n", Val.dict [("k", Val.int 1)])]) Option.none).items)
      ["n", "k"]).isSome = true :=
  ⟨rfl, by decide,
   claim2_revelation_completeness_amended
     [("n", Val.dict [("k", Val.int 1)])] Option.none [] false [] [] []
     "n" ["k"] (Val.int 1) rfl (by decide)⟩

/-- C10: dogmatize of a mapping yields a DogmaticDict whose dict content is
empty (no key is visible to iteration, length or membership) even though
every key of the mapping is protected in _fixed; a protected key becomes an
actual entry only once it is assigned (directly or through update, e.g. from
the preset) or once revelation runs, so a block cannot read a fixed value
that it did not itself assign and that the preset did not supply. -/
theorem claim10_dogmatize_hides_fixed (es : List (String × Val))
    (k : String) (v0 : Val) (w : DVal) (f : Nat)
    (hk : lookupA es k = some v0) (hf : dictDepth (Val.dict es) ≤ f) :
    dogmatize (Val.dict es) = DVal.dogdict [] (dogmatizeEntries es) [] ∧
    memA (dogmatizeEntries es) k = true ∧
    lookupA ([] : List (String × DVal)) k = Option.none ∧
    memA (DogmaticDict.setItem ⟨[], dogmatizeEntries es, []⟩ k w).entries
      k = true ∧
    memA (DogmaticDict.update ⟨[], dogmatizeEntries es, []⟩
      [(k, w)]).entries k = true ∧
    memA ((DogmaticDict.revelation f
      ⟨[], dogmatizeEntries es, []⟩).1.entries) k = true := by
  have h0 : FxV (.dogdict
      (⟨[], dogmatizeEntries es, []⟩ : DogmaticDict).entries
      (⟨[], dogmatizeEntries es, []⟩ : DogmaticDict).fixd
      (⟨[], dogmatizeEntries es, []⟩ : DogmaticDict).tchanges)
      (.dict es) := by
    have hdg := fxv_dogmatize (Val.dict es)
    simpa [dogmatize] using hdg
  refine ⟨by simp [dogmatize], ?_, rfl, memA_setItem_self _ _ _, ?_, ?_⟩
  · simp [memA, lookupA_dogmatizeEntries, hk]
  · have hupd : DogmaticDict.update ⟨[], dogmatizeEntries es, []⟩ [(k, w)] =
        DogmaticDict.setItem ⟨[], dogmatizeEntries es, []⟩ k w := by
      simp [DogmaticDict.update, DogmaticDict.updateItems]
    rw [hupd]
    exact memA_setItem_self _ _ _
  · have h3 := rev_complete f ⟨[], dogmatizeEntries es, []⟩ es h0 hf
    obtain ⟨hA, hB⟩ := compv_dogdict_inv _ _ _ _ h3.2
    exact hA k v0 hk

/-- Witness for C10 at a concrete input: the fixed key a of a one-entry
mapping is invisible after dogmatize, and present after an assignment,
after an update, and after revelation. -/
theorem claim10_dogmatize_hides_fixed_witness :
    lookupA [("a", Val.int 1)] "a" = some (Val.int 1) ∧
    dictDepth (Val.dict [("a", Val.int 1)]) ≤ 1 ∧
    dogmatize (Val.dict [("a", Val.int 1)]) =
      DVal.dogdict [] (dogmatizeEntries [("a", Val.int 1)]) [] ∧
    memA ((DogmaticDict.revelation 1
      ⟨[], dogmatizeEntries [("a", Val.int 1)], []⟩).1.entries) "a" =
      true := by
  have h := claim10_dogmatize_hides_fixed [("a", Val.int 1)] "a"
    (Val.int 1) (DVal.int 9) 1 rfl
    (by simp [dictDepth, dictDepthEntries])
  exact ⟨rfl, by simp [dictDepth, dictDepthEntries], h.1, h.2.2.2.2.2⟩

end Sacred
